import Mathlib

/-!
Verification of the download-lifecycle backend in `backend/server.py`.

The embedding models, from the source:
* the persisted `DownloadStatus` record (`DownloadRecord` below; Python
  floats are modelled as exact rationals);
* the simulated download driver `simulate_download` together with
  `simulate_extraction`, as a fuel-indexed function producing the list of
  states it persists to the `downloads` collection (`none` models a run
  that does not terminate within the given fuel);
* the process-wide `download_paused` dictionary and the `downloads`
  collection, as association lists inside a `ServerState`;
* the API handlers (`create_download`, `get_download_status`,
  `start_download`, `pause_download`, `resume_download`,
  `delete_download`, `start_installation`) as `ServerState` transformers
  returning `Except Nat _`, where the error value is the HTTP status code
  raised via `HTTPException`.
-/

namespace Sims4

/-- The `status` strings of `DownloadStatus` (`backend/server.py` line 46). -/
inductive Status where
  | idle
  | fetching_info
  | downloading
  | paused
  | verifying
  | verified
  | extracting
  | installing
  | completed
  | error
  deriving DecidableEq, Repr

/-- The `checksum_status` strings (`pending`, `calculating`, `verified`). -/
inductive ChecksumState where
  | pending
  | calculating
  | verified
  deriving DecidableEq, Repr

/-- The persisted fields of a `DownloadStatus` document that the lifecycle
logic reads or writes (`backend/server.py` lines 39-56).  Python floats are
modelled as exact rationals; the defaults are the model's defaults. -/
structure DownloadRecord where
  filename : String := "TheSims4.zip"
  total_size : Nat := 0
  downloaded_size : Nat := 0
  progress : ℚ := 0
  status : Status := .idle
  speed : ℚ := 0
  eta : String := "--:--:--"
  checksum_status : ChecksumState := .pending
  deriving DecidableEq, Repr

/-- Python `f"{n:02d}"` for a nonnegative `n`. -/
def pad2 (n : Nat) : String :=
  if n < 10 then "0" ++ toString n else toString n

/-- Python float modulus `a % b`, `a - b * (a // b)`, for `b > 0`. -/
def qmod (a b : ℚ) : ℚ := a - b * (Rat.floor (a / b) : ℚ)

/-- The `eta` string computed from `eta_seconds` in `simulate_download`
(`backend/server.py` lines 288-291).  All quantities there are nonnegative,
where Python `int` truncation agrees with the floor. -/
def fmtEta (etaSeconds : ℚ) : String :=
  let hours := (Rat.floor (etaSeconds / 3600)).toNat
  let minutes := (Rat.floor (qmod etaSeconds 3600 / 60)).toNat
  let seconds := (Rat.floor (qmod etaSeconds 60)).toNat
  pad2 hours ++ ":" ++ pad2 minutes ++ ":" ++ pad2 seconds

/-- `chunk_size = total_size // 50` (`backend/server.py` line 269). -/
def chunkSize (total : Nat) : Nat := total / 50

/-- The `$set` issued by one iteration of the `while downloaded < total_size`
loop (`backend/server.py` lines 279-303): advance `downloaded` by
`chunk_size`, clamp at `total_size`, recompute `progress`, `speed` and `eta`,
and set status `downloading`. -/
def stepWrite (total : Nat) (r : DownloadRecord) : DownloadRecord :=
  let downloaded := min (r.downloaded_size + chunkSize total) total
  let speed : ℚ := (chunkSize total : ℚ) / (3 / 10)
  let remaining : ℚ := (total : ℚ) - (downloaded : ℚ)
  let etaSeconds : ℚ := if 0 < speed then remaining / speed else 0
  { r with
    downloaded_size := downloaded
    progress := (downloaded : ℚ) / (total : ℚ) * 100
    speed := speed
    eta := fmtEta etaSeconds
    status := .downloading }

/-- The `$set` issued when the pause flag is observed
(`backend/server.py` lines 273-276). -/
def pauseWrite (r : DownloadRecord) : DownloadRecord :=
  { r with status := .paused }

/-- Lines 308-315: loop done, start verification. -/
def verifyingWrite (r : DownloadRecord) : DownloadRecord :=
  { r with status := .verifying, checksum_status := .calculating }

/-- Lines 320-329: verification done. -/
def verifiedWrite (r : DownloadRecord) : DownloadRecord :=
  { r with status := .verified, checksum_status := .verified, progress := 100 }

/-- `simulate_extraction`, first write (lines 336-342). -/
def extractingWrite (r : DownloadRecord) : DownloadRecord :=
  { r with status := .extracting }

/-- `simulate_extraction`, second write (lines 346-352); also the write of
`start_installation` (lines 517-520). -/
def installingWrite (r : DownloadRecord) : DownloadRecord :=
  { r with status := .installing }

/-- `simulate_extraction`, final write (lines 356-362). -/
def completedWrite (r : DownloadRecord) : DownloadRecord :=
  { r with status := .completed }

/-- `simulate_extraction` (`backend/server.py` lines 334-362): the sequence
of states it persists, starting from the stored state `r`. -/
def simulate_extraction (r : DownloadRecord) : List DownloadRecord :=
  [extractingWrite r,
   installingWrite (extractingWrite r),
   completedWrite (installingWrite (extractingWrite r))]

/-- The states persisted after the download loop exits normally
(`backend/server.py` lines 307-332): verifying, verified, then
`simulate_extraction`. -/
def completionTrace (r : DownloadRecord) : List DownloadRecord :=
  verifyingWrite r ::
    verifiedWrite (verifyingWrite r) ::
      simulate_extraction (verifiedWrite (verifyingWrite r))

/-- The stored record after the initial state `r0` followed by the writes
`tr` (each write in a trace replaces the whole stored record). -/
def lastState (r0 : DownloadRecord) : List DownloadRecord → DownloadRecord
  | [] => r0
  | x :: tr => lastState x tr

/-- The `while downloaded < total_size` loop of `simulate_download`
(`backend/server.py` lines 271-305), fuel-indexed.  `pauseSig i` is the value
`download_paused.get(download_id, False)` reads at the `i`-th iteration (the
flag is mutated concurrently by the pause/resume/delete handlers).  Returns
the list of persisted states and whether the loop returned early because of
the pause flag; `none` when the fuel runs out before the loop does. -/
def downloadLoop (pauseSig : Nat → Bool) (total : Nat) :
    Nat → Nat → DownloadRecord → Option (List DownloadRecord × Bool)
  | 0, _, r => if r.downloaded_size < total then none else some ([], false)
  | fuel + 1, i, r =>
    if r.downloaded_size < total then
      if pauseSig i then
        some ([pauseWrite r], true)
      else
        match downloadLoop pauseSig total fuel (i + 1) (stepWrite total r) with
        | none => none
        | some (tr, p) => some (stepWrite total r :: tr, p)
    else
      some ([], false)

/-- Outcome of a terminating `simulate_download` run: interrupted by the
pause flag, or run to completion through `simulate_extraction`. -/
inductive DriverResult where
  | paused (trace : List DownloadRecord)
  | finished (trace : List DownloadRecord)
  deriving DecidableEq, Repr

/-- The list of states a driver run persists. -/
def DriverResult.trace : DriverResult → List DownloadRecord
  | .paused tr => tr
  | .finished tr => tr

/-- `simulate_download(download_id, total_size)` (`backend/server.py`
lines 264-332): the local `downloaded` starts at the persisted record's
`downloaded_size` (line 267), the loop runs, and on normal exit the
verification and extraction states are persisted.  Fuel-indexed: `none`
models a run whose loop does not exit within `fuel` iterations. -/
def simulate_download (pauseSig : Nat → Bool) (total fuel : Nat)
    (r0 : DownloadRecord) : Option DriverResult :=
  match downloadLoop pauseSig total fuel 0 r0 with
  | none => none
  | some (tr, true) => some (.paused tr)
  | some (tr, false) => some (.finished (tr ++ completionTrace (lastState r0 tr)))

/-- `db.downloads.find_one({"id": id})`: the first document whose `id`
field matches. -/
def findRecord (id : String) : List (String × DownloadRecord) → Option DownloadRecord
  | [] => none
  | p :: ps => if p.1 = id then some p.2 else findRecord id ps

/-- `db.downloads.update_one({"id": id}, {"$set": ...})`: rewrite the first
matching document, if any. -/
def updateOne (id : String) (f : DownloadRecord → DownloadRecord) :
    List (String × DownloadRecord) → List (String × DownloadRecord)
  | [] => []
  | p :: ps => if p.1 = id then (p.1, f p.2) :: ps else p :: updateOne id f ps

/-- `db.downloads.delete_one({"id": id})`: remove the first matching
document, returning the new collection and `deleted_count`. -/
def deleteOne (id : String) :
    List (String × DownloadRecord) → List (String × DownloadRecord) × Nat
  | [] => ([], 0)
  | p :: ps =>
    if p.1 = id then (ps, 1)
    else
      let res := deleteOne id ps
      (p :: res.1, res.2)

/-- Python dict assignment `download_paused[id] = b`. -/
def dictSet (id : String) (b : Bool) : List (String × Bool) → List (String × Bool)
  | [] => [(id, b)]
  | p :: ps => if p.1 = id then (id, b) :: ps else p :: dictSet id b ps

/-- Membership lookup in the `download_paused` dictionary (`some b` when the
key is present, `none` when absent). -/
def dictFind (id : String) : List (String × Bool) → Option Bool
  | [] => none
  | p :: ps => if p.1 = id then some p.2 else dictFind id ps

/-- The mutable state the API handlers touch: the `downloads` collection and
the process-wide `download_paused` dictionary (`backend/server.py`
lines 63-64). -/
structure ServerState where
  downloads : List (String × DownloadRecord)
  paused : List (String × Bool)
  deriving DecidableEq, Repr

/-- The record inserted by `create_download` (`backend/server.py`
lines 398-405): default `DownloadStatus` fields with the resolved filename
and size, status `idle`. -/
def createRecord (filename : String) (total : Nat) : DownloadRecord :=
  { filename := filename, total_size := total }

/-- `create_download` (`backend/server.py` lines 382-414): insert the new
record and set `download_paused[id] = False`. -/
def create_download (id filename : String) (total : Nat) (s : ServerState) :
    ServerState :=
  { downloads := s.downloads ++ [(id, createRecord filename total)]
    paused := dictSet id false s.paused }

/-- `get_download_status` (`backend/server.py` lines 416-427): 404 when no
document matches, otherwise the record. -/
def get_download_status (id : String) (s : ServerState) :
    Except Nat DownloadRecord :=
  match findRecord id s.downloads with
  | none => .error 404
  | some r => .ok r

/-- `start_download` (`backend/server.py` lines 439-461): 404 for an unknown
id; otherwise set the pause flag false, set status `downloading`, and spawn
`simulate_download` with the document's `total_size` (returned here as the
spawned task's argument). -/
def start_download (id : String) (s : ServerState) :
    Except Nat Nat × ServerState :=
  match findRecord id s.downloads with
  | none => (.error 404, s)
  | some doc =>
    let s1 : ServerState := { s with paused := dictSet id false s.paused }
    (.ok doc.total_size,
      { s1 with
        downloads := updateOne id (fun r => { r with status := .downloading }) s1.downloads })

/-- `pause_download` (`backend/server.py` lines 463-477): 404 for an unknown
id; otherwise set the pause flag true and status `paused`. -/
def pause_download (id : String) (s : ServerState) :
    Except Nat Unit × ServerState :=
  match findRecord id s.downloads with
  | none => (.error 404, s)
  | some _ =>
    let s1 : ServerState := { s with paused := dictSet id true s.paused }
    (.ok (),
      { s1 with
        downloads := updateOne id (fun r => { r with status := .paused }) s1.downloads })

/-- `resume_download` (`backend/server.py` lines 479-496): same state changes
as `start_download`, then spawns `simulate_download` with the document's
`total_size` (returned as the spawned task's argument); the spawned driver
reads the persisted `downloaded_size` when it starts. -/
def resume_download (id : String) (s : ServerState) :
    Except Nat Nat × ServerState :=
  match findRecord id s.downloads with
  | none => (.error 404, s)
  | some doc =>
    let s1 : ServerState := { s with paused := dictSet id false s.paused }
    (.ok doc.total_size,
      { s1 with
        downloads := updateOne id (fun r => { r with status := .downloading }) s1.downloads })

/-- `delete_download` (`backend/server.py` lines 498-505): sets
`download_paused[id] = True` first, then deletes the document; 404 when
nothing was deleted. -/
def delete_download (id : String) (s : ServerState) :
    Except Nat Unit × ServerState :=
  let s1 : ServerState := { s with paused := dictSet id true s.paused }
  let res := deleteOne id s1.downloads
  let s2 : ServerState := { s1 with downloads := res.1 }
  if res.2 = 0 then (.error 404, s2) else (.ok (), s2)

/-- `start_installation` (`backend/server.py` lines 507-524): 404 for an
unknown id; 400 unless the status is `verified` or `extracting`; otherwise
set status `installing` and spawn `simulate_extraction`. -/
def start_installation (id : String) (s : ServerState) :
    Except Nat Unit × ServerState :=
  match findRecord id s.downloads with
  | none => (.error 404, s)
  | some doc =>
    if doc.status = .verified ∨ doc.status = .extracting then
      (.ok (),
        { s with
          downloads := updateOne id (fun r => { r with status := .installing }) s.downloads })
    else
      (.error 400, s)

/-- The record invariant of the spec: `0 ≤ downloaded_size ≤ total_size`,
and `progress = downloaded_size / total_size * 100` whenever
`total_size > 0`. -/
def Inv (r : DownloadRecord) : Prop :=
  r.downloaded_size ≤ r.total_size ∧
    (0 < r.total_size →
      r.progress = (r.downloaded_size : ℚ) / (r.total_size : ℚ) * 100)

/-- All records stored in the collection satisfy the record invariant. -/
def InvState (s : ServerState) : Prop :=
  ∀ p ∈ s.downloads, Inv p.2

/-- Position of a status along the pipeline order named by the spec
(`idle, downloading, verifying, verified, extracting, installing,
completed`); `paused` sits beside `downloading` (the excepted cycle),
`fetching_info` beside `idle`, and `error` is terminal. -/
def rank : Status → Nat
  | .idle => 0
  | .fetching_info => 0
  | .downloading => 1
  | .paused => 1
  | .verifying => 2
  | .verified => 3
  | .extracting => 4
  | .installing => 5
  | .completed => 6
  | .error => 7

/-! ### Basic lemmas about traces and the download loop -/

theorem lastState_append_singleton (r0 x : DownloadRecord)
    (l : List DownloadRecord) : lastState r0 (l ++ [x]) = x := by
  induction l generalizing r0 with
  | nil => rfl
  | cons y l ih => simpa [lastState] using ih y

theorem lastState_mem (r0 : DownloadRecord) (tr : List DownloadRecord) :
    lastState r0 tr = r0 ∨ lastState r0 tr ∈ tr := by
  induction tr generalizing r0 with
  | nil => exact Or.inl rfl
  | cons x l ih =>
    rcases ih x with h | h
    · exact Or.inr (by simp [lastState, h])
    · exact Or.inr (by simp [lastState]; exact Or.inr h)

theorem stepWrite_downloaded (total : Nat) (r : DownloadRecord) :
    (stepWrite total r).downloaded_size
      = min (r.downloaded_size + chunkSize total) total := rfl

theorem stepWrite_total (total : Nat) (r : DownloadRecord) :
    (stepWrite total r).total_size = r.total_size := rfl

theorem stepWrite_status (total : Nat) (r : DownloadRecord) :
    (stepWrite total r).status = .downloading := rfl

theorem pauseWrite_downloaded (r : DownloadRecord) :
    (pauseWrite r).downloaded_size = r.downloaded_size := rfl

/-- A run of the loop that ends with the pause flag set persists exactly the
downloading writes followed by one `pauseWrite` of the last stored state. -/
theorem downloadLoop_paused_shape (pauseSig : Nat → Bool) (total : Nat) :
    ∀ fuel i r tr, downloadLoop pauseSig total fuel i r = some (tr, true) →
      ∃ tr0, tr = tr0 ++ [pauseWrite (lastState r tr0)] := by
  intro fuel
  induction fuel with
  | zero =>
    intro i r tr h
    simp only [downloadLoop] at h
    split at h <;> simp_all
  | succ fuel ih =>
    intro i r tr h
    simp only [downloadLoop] at h
    split at h
    · split at h
      · simp only [Option.some.injEq, Prod.mk.injEq] at h
        exact ⟨[], by simp [lastState, h.1.symm]⟩
      · cases hrec : downloadLoop pauseSig total fuel (i + 1) (stepWrite total r) with
        | none => rw [hrec] at h; exact absurd h (by simp)
        | some v =>
          obtain ⟨tr1, p⟩ := v
          rw [hrec] at h
          simp only [Option.some.injEq, Prod.mk.injEq] at h
          obtain ⟨htr, hp⟩ := h
          obtain ⟨tr0, h0⟩ := ih (i + 1) (stepWrite total r) tr1 (by rw [hrec, hp])
          exact ⟨stepWrite total r :: tr0, by simp [← htr, h0, lastState]⟩
    · simp_all

/-- A normal exit of the loop leaves the stored `downloaded_size` at or above
`total`. -/
theorem downloadLoop_finished_exit (pauseSig : Nat → Bool) (total : Nat) :
    ∀ fuel i r tr, downloadLoop pauseSig total fuel i r = some (tr, false) →
      total ≤ (lastState r tr).downloaded_size := by
  intro fuel
  induction fuel with
  | zero =>
    intro i r tr h
    simp only [downloadLoop] at h
    split at h
    · simp_all
    · simp only [Option.some.injEq, Prod.mk.injEq] at h
      obtain ⟨htr, -⟩ := h
      subst htr
      simp only [lastState]
      omega
  | succ fuel ih =>
    intro i r tr h
    simp only [downloadLoop] at h
    split at h
    · split at h
      · simp_all
      · cases hrec : downloadLoop pauseSig total fuel (i + 1) (stepWrite total r) with
        | none => rw [hrec] at h; exact absurd h (by simp)
        | some v =>
          obtain ⟨tr1, p⟩ := v
          rw [hrec] at h
          simp only [Option.some.injEq, Prod.mk.injEq] at h
          obtain ⟨htr, hp⟩ := h
          have := ih (i + 1) (stepWrite total r) tr1 (by rw [hrec, hp])
          rw [← htr]
          simpa [lastState] using this
    · simp only [Option.some.injEq, Prod.mk.injEq] at h
      obtain ⟨htr, -⟩ := h
      subst htr
      simp only [lastState]
      omega

/-- Any property preserved by the loop's two kinds of writes holds of every
state the loop persists. -/
theorem downloadLoop_trace_mem (pauseSig : Nat → Bool) (total : Nat)
    (P : DownloadRecord → Prop)
    (hstep : ∀ r, P r → r.downloaded_size < total → P (stepWrite total r))
    (hpause : ∀ r, P r → P (pauseWrite r)) :
    ∀ fuel i r tr p, P r → downloadLoop pauseSig total fuel i r = some (tr, p) →
      ∀ x ∈ tr, P x := by
  intro fuel
  induction fuel with
  | zero =>
    intro i r tr p hP h
    simp only [downloadLoop] at h
    split at h <;> simp_all
  | succ fuel ih =>
    intro i r tr p hP h
    simp only [downloadLoop] at h
    split at h
    · rename_i hd
      split at h
      · simp only [Option.some.injEq, Prod.mk.injEq] at h
        intro x hx
        rw [← h.1] at hx
        simp only [List.mem_singleton] at hx
        exact hx ▸ hpause r hP
      · cases hrec : downloadLoop pauseSig total fuel (i + 1) (stepWrite total r) with
        | none => rw [hrec] at h; exact absurd h (by simp)
        | some v =>
          obtain ⟨tr1, p1⟩ := v
          rw [hrec] at h
          simp only [Option.some.injEq, Prod.mk.injEq] at h
          obtain ⟨htr, hp⟩ := h
          intro x hx
          rw [← htr] at hx
          simp only [List.mem_cons] at hx
          rcases hx with hx | hx
          · exact hx ▸ hstep r hP hd
          · exact ih (i + 1) (stepWrite total r) tr1 p1 (hstep r hP hd) (by rw [hrec, hp]) x hx
    · simp_all

/-- Every state a normal (non-paused) loop run persists has status
`downloading`. -/
theorem downloadLoop_finished_status (pauseSig : Nat → Bool) (total : Nat) :
    ∀ fuel i r tr, downloadLoop pauseSig total fuel i r = some (tr, false) →
      ∀ x ∈ tr, x.status = .downloading := by
  intro fuel
  induction fuel with
  | zero =>
    intro i r tr h
    simp only [downloadLoop] at h
    split at h <;> simp_all
  | succ fuel ih =>
    intro i r tr h
    simp only [downloadLoop] at h
    split at h
    · split at h
      · simp_all
      · cases hrec : downloadLoop pauseSig total fuel (i + 1) (stepWrite total r) with
        | none => rw [hrec] at h; exact absurd h (by simp)
        | some v =>
          obtain ⟨tr1, p1⟩ := v
          rw [hrec] at h
          simp only [Option.some.injEq, Prod.mk.injEq] at h
          obtain ⟨htr, hp⟩ := h
          intro x hx
          rw [← htr] at hx
          simp only [List.mem_cons] at hx
          rcases hx with hx | hx
          · exact hx ▸ stepWrite_status total r
          · exact ih (i + 1) (stepWrite total r) tr1 (by rw [hrec, hp]) x hx
    · simp_all

/-- When the per-iteration chunk is at least one byte, the loop terminates:
with enough fuel it exits normally, every iteration strictly increases the
stored `downloaded_size`, and the final stored value is exactly `total`. -/
theorem downloadLoop_terminates (total : Nat) (hchunk : 1 ≤ chunkSize total) :
    ∀ fuel i r, r.downloaded_size ≤ total → total - r.downloaded_size ≤ fuel →
      ∃ tr, downloadLoop (fun _ => false) total fuel i r = some (tr, false) ∧
        List.Chain' (fun a b => a.downloaded_size < b.downloaded_size) (r :: tr) ∧
        (lastState r tr).downloaded_size = total := by
  intro fuel
  induction fuel with
  | zero =>
    intro i r hle hfuel
    have hd : r.downloaded_size = total := by omega
    exact ⟨[], by simp [downloadLoop, hd], by simp, by simp [lastState, hd]⟩
  | succ fuel ih =>
    intro i r hle hfuel
    by_cases hd : r.downloaded_size < total
    · have hstep : (stepWrite total r).downloaded_size
          = min (r.downloaded_size + chunkSize total) total := rfl
      have hlt : r.downloaded_size < (stepWrite total r).downloaded_size := by
        rw [hstep]; omega
      have hle1 : (stepWrite total r).downloaded_size ≤ total := by
        rw [hstep]; omega
      have hfuel1 : total - (stepWrite total r).downloaded_size ≤ fuel := by
        rw [hstep]; omega
      obtain ⟨tr1, heq, hchain, hlast⟩ := ih (i + 1) (stepWrite total r) hle1 hfuel1
      refine ⟨stepWrite total r :: tr1, ?_, ?_, ?_⟩
      · simp [downloadLoop, hd, heq]
      · exact List.Chain'.cons hlt hchain
      · simpa [lastState] using hlast
    · have hd' : r.downloaded_size = total := by omega
      exact ⟨[], by simp [downloadLoop, hd], by simp, by simp [lastState, hd']⟩

/-- The statuses persisted by the completion phase, in order. -/
theorem completionTrace_statuses (r : DownloadRecord) :
    (completionTrace r).map DownloadRecord.status
      = [.verifying, .verified, .extracting, .installing, .completed] := rfl

/-- The completion phase never touches `downloaded_size`. -/
theorem completionTrace_downloaded (r : DownloadRecord) :
    ∀ x ∈ completionTrace r, x.downloaded_size = r.downloaded_size := by
  intro x hx
  simp only [completionTrace, simulate_extraction, List.mem_cons,
    List.mem_singleton, List.not_mem_nil, or_false] at hx
  rcases hx with h | h | h | h | h <;> subst h <;> rfl

/-- The completion phase never touches `total_size`. -/
theorem completionTrace_total (r : DownloadRecord) :
    ∀ x ∈ completionTrace r, x.total_size = r.total_size := by
  intro x hx
  simp only [completionTrace, simulate_extraction, List.mem_cons,
    List.mem_singleton, List.not_mem_nil, or_false] at hx
  rcases hx with h | h | h | h | h <;> subst h <;> rfl

/-- Starting from a fully downloaded record that satisfies the invariant,
every state of the completion phase satisfies the invariant (in particular,
setting `progress := 100` in `verifiedWrite` is consistent with the formula
because `downloaded_size = total_size` there). -/
theorem completionTrace_inv (r : DownloadRecord) (hInv : Inv r)
    (hfull : r.downloaded_size = r.total_size) :
    ∀ x ∈ completionTrace r, Inv x := by
  have h100 : 0 < r.total_size →
      (100 : ℚ) = (r.downloaded_size : ℚ) / (r.total_size : ℚ) * 100 := by
    intro ht
    rw [hfull, div_self (by exact_mod_cast ht.ne' : (r.total_size : ℚ) ≠ 0), one_mul]
  intro x hx
  simp only [completionTrace, simulate_extraction, List.mem_cons,
    List.mem_singleton, List.not_mem_nil, or_false] at hx
  rcases hx with h | h | h | h | h <;> subst h
  · exact ⟨hInv.1, hInv.2⟩
  · exact ⟨hInv.1, fun ht => h100 ht⟩
  · exact ⟨hInv.1, fun ht => h100 ht⟩
  · exact ⟨hInv.1, fun ht => h100 ht⟩
  · exact ⟨hInv.1, fun ht => h100 ht⟩

/-! ### Association-list lemmas for the store and the pause dictionary -/

theorem findRecord_updateOne (id : String) (f : DownloadRecord → DownloadRecord) :
    ∀ l, findRecord id (updateOne id f l) = (findRecord id l).map f := by
  intro l
  induction l with
  | nil => rfl
  | cons p ps ih =>
    by_cases h : p.1 = id
    · simp [updateOne, findRecord, h]
    · simp [updateOne, findRecord, h, ih]

theorem findRecord_none_deleteOne (id : String) :
    ∀ l, findRecord id l = none → deleteOne id l = (l, 0) := by
  intro l
  induction l with
  | nil => intro _; rfl
  | cons p ps ih =>
    intro h
    by_cases hp : p.1 = id
    · simp [findRecord, hp] at h
    · simp only [findRecord, hp, if_false] at h
      simp [deleteOne, hp, ih h]

theorem findRecord_some_deleteOne_count (id : String) :
    ∀ l r, findRecord id l = some r → (deleteOne id l).2 = 1 := by
  intro l
  induction l with
  | nil => intro r h; simp [findRecord] at h
  | cons p ps ih =>
    intro r h
    by_cases hp : p.1 = id
    · simp [deleteOne, hp]
    · simp only [findRecord, hp, if_false] at h
      simp [deleteOne, hp, ih r h]

theorem findRecord_some_mem_keys (id : String) :
    ∀ l (r : DownloadRecord), findRecord id l = some r → id ∈ l.map Prod.fst := by
  intro l
  induction l with
  | nil => intro r h; simp [findRecord] at h
  | cons p ps ih =>
    intro r h
    by_cases hp : p.1 = id
    · simp [hp]
    · simp only [findRecord, hp, if_false] at h
      simpa using Or.inr (ih r h)

theorem findRecord_deleteOne_nodup (id : String) :
    ∀ l, (l.map Prod.fst).Nodup → findRecord id (deleteOne id l).1 = none := by
  intro l
  induction l with
  | nil => intro _; rfl
  | cons p ps ih =>
    intro hnd
    simp only [List.map_cons, List.nodup_cons] at hnd
    by_cases hp : p.1 = id
    · simp only [deleteOne, hp, if_true]
      cases hrec : findRecord id ps with
      | none => rfl
      | some r =>
        exact absurd (hp ▸ findRecord_some_mem_keys id ps r hrec) hnd.1
    · simp [deleteOne, hp, findRecord, ih hnd.2]

theorem mem_deleteOne (id : String) :
    ∀ l p, p ∈ (deleteOne id l).1 → p ∈ l := by
  intro l
  induction l with
  | nil => intro p h; simp [deleteOne] at h
  | cons q qs ih =>
    intro p h
    by_cases hq : q.1 = id
    · simp only [deleteOne, hq, if_true] at h
      exact List.mem_cons_of_mem q h
    · simp only [deleteOne, hq, if_false, List.mem_cons] at h
      rcases h with h | h
      · exact h ▸ List.mem_cons_self q qs
      · exact List.mem_cons_of_mem q (ih p h)

theorem mem_updateOne (id : String) (f : DownloadRecord → DownloadRecord) :
    ∀ l p, p ∈ updateOne id f l → p ∈ l ∨ ∃ q ∈ l, p = (q.1, f q.2) := by
  intro l
  induction l with
  | nil => intro p h; simp [updateOne] at h
  | cons q qs ih =>
    intro p h
    by_cases hq : q.1 = id
    · simp only [updateOne, hq, if_true, List.mem_cons] at h
      rcases h with h | h
      · exact Or.inr ⟨q, List.mem_cons_self q qs, by rw [hq]; exact h⟩
      · exact Or.inl (List.mem_cons_of_mem q h)
    · simp only [updateOne, hq, if_false, List.mem_cons] at h
      rcases h with h | h
      · exact Or.inl (h ▸ List.mem_cons_self q qs)
      · rcases ih p h with h | ⟨t, ht, hpt⟩
        · exact Or.inl (List.mem_cons_of_mem q h)
        · exact Or.inr ⟨t, List.mem_cons_of_mem q ht, hpt⟩

theorem dictFind_dictSet (id : String) (b : Bool) :
    ∀ m, dictFind id (dictSet id b m) = some b := by
  intro m
  induction m with
  | nil => simp [dictSet, dictFind]
  | cons p ps ih =>
    by_cases hp : p.1 = id
    · simp [dictSet, dictFind, hp]
    · simp [dictSet, dictFind, hp, ih]

/-- A write that only changes `status`- or checksum-like fields preserves the
record invariant. -/
theorem inv_of_statusWrite (r : DownloadRecord) (st : Status) (hInv : Inv r) :
    Inv { r with status := st } := ⟨hInv.1, hInv.2⟩

theorem invState_updateOne_status (id : String) (st : Status)
    (l : List (String × DownloadRecord)) (h : ∀ p ∈ l, Inv p.2) :
    ∀ p ∈ updateOne id (fun r => { r with status := st }) l, Inv p.2 := by
  intro p hp
  rcases mem_updateOne id _ l p hp with hm | ⟨q, hq, hpq⟩
  · exact h p hm
  · exact hpq ▸ inv_of_statusWrite q.2 st (h q hq)

/-! ### Claim theorems -/

/-- C5 (amended): `start_installation` rejects with HTTP 400 and leaves the
whole server state unchanged whenever the record's status is neither
`verified` nor `extracting`, and returns HTTP 404 for an unknown
identifier. -/
theorem install_rejects_unless_verified_or_extracting (id : String) (s : ServerState) :
    (∀ rec, findRecord id s.downloads = some rec →
      rec.status ≠ .verified → rec.status ≠ .extracting →
      start_installation id s = (.error 400, s)) ∧
    (findRecord id s.downloads = none → start_installation id s = (.error 404, s)) := by
  constructor
  · intro rec h hv he
    simp [start_installation, h, hv, he]
  · intro h
    simp [start_installation, h]

/-- C5 counterexample: a record in status `extracting` is not `verified`,
yet `start_installation` accepts it (returns `ok`, not HTTP 400). -/
def extractingState : ServerState :=
  { downloads := [("a", { createRecord "TheSims4.zip" 100 with status := .extracting })]
    paused := [] }

theorem install_accepts_extracting_counterexample :
    (findRecord "a" extractingState.downloads).map DownloadRecord.status
        = some .extracting ∧
    Status.extracting ≠ Status.verified ∧
    (start_installation "a" extractingState).1 = .ok () :=
  ⟨rfl, by simp, rfl⟩

def idleState : ServerState :=
  { downloads := [("b", createRecord "TheSims4.zip" 100)], paused := [] }

theorem install_rejects_witness :
    start_installation "b" idleState = (.error 400, idleState) ∧
    start_installation "zz" idleState = (.error 404, idleState) :=
  ⟨(install_rejects_unless_verified_or_extracting "b" idleState).1
      (createRecord "TheSims4.zip" 100) rfl (by simp [createRecord]) (by simp [createRecord]),
   (install_rejects_unless_verified_or_extracting "zz" idleState).2 rfl⟩

/-- C7 (amended): deleting an existing record removes the record from the
collection and sets that identifier's pause flag to `True` (stopping any
running driver) — but the pause-map entry is not removed: it remains, mapped
to `True`. -/
theorem delete_removes_record_and_sets_pause_flag (id : String) (s : ServerState)
    (r : DownloadRecord) (h : findRecord id s.downloads = some r) :
    ∃ s', delete_download id s = (.ok (), s') ∧
      s'.downloads = (deleteOne id s.downloads).1 ∧
      dictFind id s'.paused = some true := by
  have hc := findRecord_some_deleteOne_count id s.downloads r h
  refine ⟨{ downloads := (deleteOne id s.downloads).1
            paused := dictSet id true s.paused }, ?_, rfl,
    dictFind_dictSet id true s.paused⟩
  simp [delete_download, hc]

/-- C7 counterexample: after deleting `"a"`, the pause dictionary still has
an entry for `"a"` (mapped to `true`), so the entry was not cleared. -/
def preDeleteState : ServerState :=
  { downloads := [("a", createRecord "TheSims4.zip" 100)]
    paused := [("a", false)] }

theorem delete_leaves_pause_entry_counterexample :
    (delete_download "a" preDeleteState).1 = .ok () ∧
    (delete_download "a" preDeleteState).2.downloads = [] ∧
    (delete_download "a" preDeleteState).2.paused = [("a", true)] ∧
    dictFind "a" (delete_download "a" preDeleteState).2.paused = some true :=
  ⟨rfl, rfl, rfl, rfl⟩

theorem delete_removes_record_witness :
    ∃ s', delete_download "c" { downloads := [("c", createRecord "F" 7)], paused := [] }
        = (.ok (), s') ∧
      s'.downloads = (deleteOne "c" [("c", createRecord "F" 7)]).1 ∧
      dictFind "c" s'.paused = some true :=
  delete_removes_record_and_sets_pause_flag "c"
    { downloads := [("c", createRecord "F" 7)], paused := [] } (createRecord "F" 7) rfl

/-- C8: deleting an unknown identifier returns HTTP 404, and after a
successful delete (with unique identifiers, as created by `uuid4`) a
subsequent get for that identifier returns HTTP 404. -/
theorem delete_then_get_not_found (id : String) (s : ServerState) :
    (findRecord id s.downloads = none → (delete_download id s).1 = .error 404) ∧
    (∀ s', (s.downloads.map Prod.fst).Nodup → delete_download id s = (.ok (), s') →
      get_download_status id s' = .error 404) := by
  constructor
  · intro h
    simp [delete_download, findRecord_none_deleteOne id s.downloads h]
  · intro s' hnd h
    simp only [delete_download] at h
    split at h
    · exact absurd h (by simp)
    · simp only [Prod.mk.injEq] at h
      rw [← h.2]
      simp [get_download_status, findRecord_deleteOne_nodup id s.downloads hnd]

def preGetState : ServerState :=
  { downloads := [("d", createRecord "TheSims4.zip" 9)], paused := [] }

theorem delete_then_get_not_found_witness :
    ((delete_download "nope" preGetState).1 = .error 404) ∧
    get_download_status "d" (delete_download "d" preGetState).2 = .error 404 :=
  ⟨(delete_then_get_not_found "nope" preGetState).1 rfl,
   (delete_then_get_not_found "d" preGetState).2
      (delete_download "d" preGetState).2 (by simp [preGetState]) rfl⟩

/-- C9: `delete_download` assigns `download_paused[id] = True` before the
record lookup, so even the 404 path creates or overwrites a pause-map entry
for the identifier; the document store itself is unchanged on that path. -/
theorem delete_unknown_still_sets_pause_entry (id : String) (s : ServerState)
    (h : findRecord id s.downloads = none) :
    delete_download id s
        = (.error 404, { downloads := s.downloads, paused := dictSet id true s.paused }) ∧
      dictFind id (delete_download id s).2.paused = some true := by
  have hdel := findRecord_none_deleteOne id s.downloads h
  constructor
  · simp [delete_download, hdel]
  · simp [delete_download, hdel, dictFind_dictSet]

theorem delete_unknown_still_sets_pause_entry_witness :
    delete_download "x" { downloads := [], paused := [] }
        = (.error 404, { downloads := [], paused := dictSet "x" true [] }) ∧
      dictFind "x" (delete_download "x" { downloads := [], paused := [] }).2.paused
        = some true :=
  delete_unknown_still_sets_pause_entry "x" { downloads := [], paused := [] } rfl

/-- C10: when the driver is started for a record with `total_size = 0` (and
`downloaded_size = 0`, as created), the downloading loop body never runs, no
downloading-phase write occurs, and the record goes straight through the
completion states, with `progress := 100` and `checksum_status := verified`
at the verified step while `downloaded_size` stays `0`. -/
theorem driver_zero_total_skips_loop (pauseSig : Nat → Bool) (fuel : Nat)
    (r0 : DownloadRecord) (htot : r0.total_size = 0)
    (hdl : r0.downloaded_size = 0) :
    simulate_download pauseSig r0.total_size fuel r0
        = some (.finished (completionTrace r0)) ∧
    (completionTrace r0).map DownloadRecord.status
        = [.verifying, .verified, .extracting, .installing, .completed] ∧
    (∀ x ∈ completionTrace r0, x.downloaded_size = 0) ∧
    (verifiedWrite (verifyingWrite r0)).progress = 100 ∧
    (verifiedWrite (verifyingWrite r0)).checksum_status = .verified := by
  have hloop : downloadLoop pauseSig r0.total_size fuel 0 r0 = some ([], false) := by
    cases fuel <;> simp [downloadLoop, htot]
  refine ⟨?_, completionTrace_statuses r0, ?_, rfl, rfl⟩
  · simp [simulate_download, hloop, lastState]
  · intro x hx
    rw [completionTrace_downloaded r0 x hx, hdl]

theorem driver_zero_total_skips_loop_witness :
    simulate_download (fun _ => true) (createRecord "Z" 0).total_size 5 (createRecord "Z" 0)
        = some (.finished (completionTrace (createRecord "Z" 0))) :=
  (driver_zero_total_skips_loop (fun _ => true) 5 (createRecord "Z" 0) rfl rfl).1

/-- C2 counterexample: for `total_size = 1` (which is `> 0`) the chunk is
`1 // 50 = 0`, so a loop iteration does not increase `downloaded_size` at
all, and the loop never terminates (here: still unfinished after 60
iterations, and the iteration map is the identity on `downloaded_size`). -/
theorem download_loop_stalls_counterexample :
    0 < (createRecord "TheSims4.zip" 1).total_size ∧
    (stepWrite 1 (createRecord "TheSims4.zip" 1)).downloaded_size
        = (createRecord "TheSims4.zip" 1).downloaded_size ∧
    simulate_download (fun _ => false) 1 60 (createRecord "TheSims4.zip" 1) = none :=
  ⟨by decide, by decide, by decide⟩

/-- C2 (amended): for `total_size ≥ 50` (so that `chunk_size = total // 50`
is at least one byte) an unpaused driver run strictly increases
`downloaded_size` on every loop iteration and the loop terminates with the
stored `downloaded_size` equal to `total_size`, after which the completion
phase runs. -/
theorem download_advances_and_terminates (total : Nat) (r0 : DownloadRecord)
    (h50 : 50 ≤ total) (hle : r0.downloaded_size ≤ total) :
    ∃ tr, simulate_download (fun _ => false) total (total + 1) r0
        = some (.finished (tr ++ completionTrace (lastState r0 tr))) ∧
      List.Chain' (fun a b => a.downloaded_size < b.downloaded_size) (r0 :: tr) ∧
      (lastState r0 tr).downloaded_size = total := by
  have hchunk : 1 ≤ chunkSize total :=
    (Nat.one_le_div_iff (by norm_num)).mpr h50
  obtain ⟨tr, heq, hchain, hlast⟩ :=
    downloadLoop_terminates total hchunk (total + 1) 0 r0 hle (by omega)
  exact ⟨tr, by simp [simulate_download, heq], hchain, hlast⟩

theorem download_advances_and_terminates_witness :
    ∃ tr, simulate_download (fun _ => false) 50 51 (createRecord "B" 50)
        = some (.finished (tr ++ completionTrace (lastState (createRecord "B" 50) tr))) ∧
      List.Chain' (fun a b => a.downloaded_size < b.downloaded_size)
        (createRecord "B" 50 :: tr) ∧
      (lastState (createRecord "B" 50) tr).downloaded_size = 50 :=
  download_advances_and_terminates 50 (createRecord "B" 50) (by decide) (by decide)

/-- C3: a driver run interrupted by the pause flag persists its downloading
writes and then exactly one pause write of the last stored state, so the
final stored state has status `paused` and the same `downloaded_size` as the
last persisted state (frozen, not advanced); and any driver run — in
particular the one a resume spawns on the persisted record — only ever
persists `downloaded_size` values at or above the starting record's value,
so a resume continues from the frozen value and never resets it to zero. -/
theorem pause_freezes_and_resume_continues (pauseSig : Nat → Bool)
    (total fuel : Nat) (r0 : DownloadRecord) :
    (∀ tr, simulate_download pauseSig total fuel r0 = some (.paused tr) →
      ∃ tr0, tr = tr0 ++ [pauseWrite (lastState r0 tr0)] ∧
        (lastState r0 tr).status = .paused ∧
        (lastState r0 tr).downloaded_size = (lastState r0 tr0).downloaded_size) ∧
    (∀ res, simulate_download pauseSig total fuel r0 = some res →
      ∀ x ∈ res.trace, r0.downloaded_size ≤ x.downloaded_size) := by
  have hmono := downloadLoop_trace_mem pauseSig total
      (fun y => r0.downloaded_size ≤ y.downloaded_size)
      (fun r hP hd => by
        have hs := stepWrite_downloaded total r
        omega)
      (fun r hP => hP)
      fuel 0 r0
  constructor
  · intro tr h
    simp only [simulate_download] at h
    cases hloop : downloadLoop pauseSig total fuel 0 r0 with
    | none => rw [hloop] at h; exact absurd h (by simp)
    | some v =>
      obtain ⟨tr1, p⟩ := v
      rw [hloop] at h
      cases p with
      | false => exact absurd h (by simp)
      | true =>
        simp only [Option.some.injEq, DriverResult.paused.injEq] at h
        subst h
        obtain ⟨tr0, htr⟩ := downloadLoop_paused_shape pauseSig total fuel 0 r0 tr1 hloop
        subst htr
        refine ⟨tr0, rfl, ?_, ?_⟩
        · rw [lastState_append_singleton]; rfl
        · rw [lastState_append_singleton]; rfl
  · intro res h x hx
    simp only [simulate_download] at h
    cases hloop : downloadLoop pauseSig total fuel 0 r0 with
    | none => rw [hloop] at h; exact absurd h (by simp)
    | some v =>
      obtain ⟨tr1, p⟩ := v
      rw [hloop] at h
      have hloopmem := hmono tr1 p le_rfl hloop
      cases p with
      | true =>
        simp only [Option.some.injEq] at h
        rw [← h] at hx
        exact hloopmem x hx
      | false =>
        simp only [Option.some.injEq] at h
        rw [← h] at hx
        simp only [DriverResult.trace, List.mem_append] at hx
        rcases hx with hx | hx
        · exact hloopmem x hx
        · rw [completionTrace_downloaded _ x hx]
          rcases lastState_mem r0 tr1 with hl | hl
          · rw [hl]
          · exact hloopmem _ hl

theorem pause_freezes_witness :
    ∃ tr, simulate_download (fun i => i != 0) 100 10 (createRecord "P" 100)
        = some (.paused tr) ∧
      ∃ tr0, tr = tr0 ++ [pauseWrite (lastState (createRecord "P" 100) tr0)] ∧
        (lastState (createRecord "P" 100) tr).status = .paused ∧
        (lastState (createRecord "P" 100) tr).downloaded_size
          = (lastState (createRecord "P" 100) tr0).downloaded_size :=
  ⟨_, rfl,
    (pause_freezes_and_resume_continues (fun i => i != 0) 100 10
      (createRecord "P" 100)).1 _ rfl⟩

/-- C4: every driver run that exits the downloading loop normally then
persists exactly the states `verifying`, `verified`, `extracting`,
`installing`, `completed`, in this order with nothing skipped, and the
`verified` write sets `checksum_status = verified` and `progress = 100`. -/
theorem completion_passes_through_pipeline (pauseSig : Nat → Bool)
    (total fuel : Nat) (r0 : DownloadRecord) (tr : List DownloadRecord)
    (h : simulate_download pauseSig total fuel r0 = some (.finished tr)) :
    ∃ tr0, tr = tr0 ++ completionTrace (lastState r0 tr0) ∧
      (∀ x ∈ tr0, x.status = .downloading) ∧
      (completionTrace (lastState r0 tr0)).map DownloadRecord.status
        = [.verifying, .verified, .extracting, .installing, .completed] ∧
      (verifiedWrite (verifyingWrite (lastState r0 tr0))).checksum_status
        = .verified ∧
      (verifiedWrite (verifyingWrite (lastState r0 tr0))).progress = 100 := by
  simp only [simulate_download] at h
  cases hloop : downloadLoop pauseSig total fuel 0 r0 with
  | none => rw [hloop] at h; exact absurd h (by simp)
  | some v =>
    obtain ⟨tr1, p⟩ := v
    rw [hloop] at h
    cases p with
    | true => exact absurd h (by simp)
    | false =>
      simp only [Option.some.injEq, DriverResult.finished.injEq] at h
      exact ⟨tr1, h.symm,
        downloadLoop_finished_status pauseSig total fuel 0 r0 tr1 hloop,
        completionTrace_statuses _, rfl, rfl⟩

theorem completion_passes_through_pipeline_witness :
    ∃ tr, simulate_download (fun _ => false) 100 2
        { createRecord "C" 100 with downloaded_size := 99, progress := 99 }
        = some (.finished tr) ∧
      ∃ tr0, tr = tr0 ++ completionTrace
          (lastState { createRecord "C" 100 with downloaded_size := 99, progress := 99 } tr0) ∧
        (∀ x ∈ tr0, x.status = .downloading) ∧
        (completionTrace
            (lastState { createRecord "C" 100 with downloaded_size := 99, progress := 99 } tr0)).map
            DownloadRecord.status
          = [.verifying, .verified, .extracting, .installing, .completed] ∧
        (verifiedWrite (verifyingWrite
            (lastState { createRecord "C" 100 with downloaded_size := 99, progress := 99 } tr0))).checksum_status
          = .verified ∧
        (verifiedWrite (verifyingWrite
            (lastState { createRecord "C" 100 with downloaded_size := 99, progress := 99 } tr0))).progress
          = 100 :=
  ⟨_, rfl,
    completion_passes_through_pipeline (fun _ => false) 100 2
      { createRecord "C" 100 with downloaded_size := 99, progress := 99 } _ rfl⟩

/-- A block of `downloading` writes followed by the completion phase is
non-decreasing in pipeline rank. -/
theorem chain_rank_completion (l : List DownloadRecord)
    (hl : ∀ x ∈ l, x.status = .downloading) (p : DownloadRecord) :
    List.Chain' (fun a b => rank a.status ≤ rank b.status)
      (l ++ completionTrace p) := by
  induction l with
  | nil =>
    simp only [List.nil_append, completionTrace, simulate_extraction,
      List.chain'_cons, List.chain'_singleton, and_true, verifyingWrite,
      verifiedWrite, extractingWrite, installingWrite, completedWrite]
    simp [rank]
  | cons x l ih =>
    have hx : x.status = .downloading := hl x (List.mem_cons_self x l)
    have ih' := ih fun y hy => hl y (List.mem_cons_of_mem x hy)
    rw [List.cons_append]
    refine List.chain'_cons'.mpr ⟨?_, ih'⟩
    intro h hh
    cases l with
    | nil =>
      simp only [List.nil_append, completionTrace, List.head?_cons,
        Option.mem_def, Option.some.injEq] at hh
      rw [← hh, hx]
      simp [verifyingWrite, rank]
    | cons y l2 =>
      simp only [List.cons_append, List.head?_cons, Option.mem_def,
        Option.some.injEq] at hh
      rw [← hh, hx, hl y (by simp)]

/-- C6 (amended): transitions persisted by the drivers move the status
forward along the pipeline — a driver spawned on a record in status
`downloading` (as `start_download`/`resume_download` arrange) that runs to
completion produces a rank-non-decreasing sequence of statuses, and a
successful `start_installation` moves a `verified`/`extracting` record
forward to `installing`.  However (see the counterexample), the `start`,
`resume` and `pause` handlers themselves set the status unconditionally and
can move it backwards along the pipeline. -/
theorem driver_transitions_move_forward :
    (∀ (pauseSig : Nat → Bool) (total fuel : Nat) (r0 : DownloadRecord)
        (tr : List DownloadRecord), r0.status = .downloading →
      simulate_download pauseSig total fuel r0 = some (.finished tr) →
      List.Chain' (fun a b => rank a.status ≤ rank b.status) (r0 :: tr)) ∧
    (∀ id s rec, findRecord id s.downloads = some rec →
      (start_installation id s).1 = .ok () →
      (rec.status = .verified ∨ rec.status = .extracting) ∧
      rank rec.status ≤ rank .installing ∧
      findRecord id (start_installation id s).2.downloads
        = some { rec with status := .installing }) := by
  constructor
  · intro pauseSig total fuel r0 tr hr0 h
    simp only [simulate_download] at h
    cases hloop : downloadLoop pauseSig total fuel 0 r0 with
    | none => rw [hloop] at h; exact absurd h (by simp)
    | some v =>
      obtain ⟨tr1, p⟩ := v
      rw [hloop] at h
      cases p with
      | true => exact absurd h (by simp)
      | false =>
        simp only [Option.some.injEq, DriverResult.finished.injEq] at h
        rw [← h, ← List.cons_append]
        refine chain_rank_completion (r0 :: tr1) ?_ _
        intro x hx
        rcases List.mem_cons.mp hx with hx | hx
        · exact hx ▸ hr0
        · exact downloadLoop_finished_status pauseSig total fuel 0 r0 tr1 hloop x hx
  · intro id s rec h hok
    simp only [start_installation, h] at hok ⊢
    split at hok
    · rename_i hcond
      refine ⟨hcond, ?_, ?_⟩
      · rcases hcond with hc | hc <;> rw [hc] <;> simp [rank]
      · simp only [hcond, if_true]
        rw [findRecord_updateOne id _ s.downloads, h]
        rfl
    · exact absurd hok (by simp)

/-- C6 counterexample: `start_download` on a record whose status is
`completed` unconditionally sets the status back to `downloading`, a
backwards move along the pipeline that is not the `paused ⇄ downloading`
cycle. -/
def completedState : ServerState :=
  { downloads := [("a", { createRecord "TheSims4.zip" 100 with status := .completed })]
    paused := [] }

theorem start_moves_status_backwards_counterexample :
    (findRecord "a" completedState.downloads).map DownloadRecord.status
        = some .completed ∧
    (findRecord "a" (start_download "a" completedState).2.downloads).map
        DownloadRecord.status = some .downloading ∧
    rank .downloading < rank .completed ∧
    Status.completed ≠ Status.paused ∧ Status.completed ≠ Status.downloading :=
  ⟨rfl, rfl, by decide, by decide, by decide⟩

def almostDoneRecord : DownloadRecord :=
  { createRecord "D" 100 with
    downloaded_size := 98
    progress := 98
    status := .downloading }

theorem driver_transitions_move_forward_witness :
    ∃ tr, simulate_download (fun _ => false) 100 3 almostDoneRecord
        = some (.finished tr) ∧
      List.Chain' (fun a b => rank a.status ≤ rank b.status)
        (almostDoneRecord :: tr) :=
  ⟨_, rfl,
    driver_transitions_move_forward.1 (fun _ => false) 100 3
      almostDoneRecord _ rfl rfl⟩

theorem stepWrite_progress (total : Nat) (r : DownloadRecord) :
    (stepWrite total r).progress
      = ((min (r.downloaded_size + chunkSize total) total : Nat) : ℚ)
          / (total : ℚ) * 100 := rfl

theorem inv_createRecord (fn : String) (total : Nat) :
    Inv (createRecord fn total) := by
  refine ⟨Nat.zero_le _, fun ht => ?_⟩
  show (0 : ℚ) = ((0 : Nat) : ℚ) / (total : ℚ) * 100
  simp

/-- C1: every record produced by `create_download` satisfies
`0 ≤ downloaded_size ≤ total_size` with `progress = downloaded_size /
total_size * 100` whenever `total_size > 0`; every state a driver run
persists preserves this invariant; and every API handler preserves it for
all stored records. -/
theorem records_satisfy_progress_invariant :
    (∀ fn total, Inv (createRecord fn total)) ∧
    (∀ (pauseSig : Nat → Bool) (total fuel : Nat) (r0 : DownloadRecord)
        (res : DriverResult), Inv r0 → r0.total_size = total →
      simulate_download pauseSig total fuel r0 = some res →
      ∀ x ∈ res.trace, Inv x) ∧
    (∀ id fn total s, InvState s → InvState (create_download id fn total s)) ∧
    (∀ id s, InvState s → InvState (start_download id s).2) ∧
    (∀ id s, InvState s → InvState (pause_download id s).2) ∧
    (∀ id s, InvState s → InvState (resume_download id s).2) ∧
    (∀ id s, InvState s → InvState (start_installation id s).2) ∧
    (∀ id s, InvState s → InvState (delete_download id s).2) := by
  refine ⟨inv_createRecord, ?_, ?_, ?_, ?_, ?_, ?_, ?_⟩
  · -- driver runs preserve the invariant
    intro pauseSig total fuel r0 res hInv htot hsim x hx
    have hstep : ∀ r, (Inv r ∧ r.total_size = total) → r.downloaded_size < total →
        Inv (stepWrite total r) ∧ (stepWrite total r).total_size = total := by
      intro r hP hd
      obtain ⟨hI, hT⟩ := hP
      refine ⟨⟨?_, fun ht => ?_⟩, by rw [stepWrite_total, hT]⟩
      · rw [stepWrite_downloaded, stepWrite_total, hT]
        omega
      · rw [stepWrite_progress, stepWrite_downloaded, stepWrite_total, hT]
    have hpause : ∀ r, (Inv r ∧ r.total_size = total) →
        Inv (pauseWrite r) ∧ (pauseWrite r).total_size = total := fun r hP => hP
    have hmem := downloadLoop_trace_mem pauseSig total
        (fun y => Inv y ∧ y.total_size = total) hstep hpause fuel 0 r0
    simp only [simulate_download] at hsim
    cases hloop : downloadLoop pauseSig total fuel 0 r0 with
    | none => rw [hloop] at hsim; exact absurd hsim (by simp)
    | some v =>
      obtain ⟨tr1, p⟩ := v
      rw [hloop] at hsim
      have hloopmem := hmem tr1 p ⟨hInv, htot⟩ hloop
      cases p with
      | true =>
        simp only [Option.some.injEq] at hsim
        rw [← hsim] at hx
        exact (hloopmem x hx).1
      | false =>
        simp only [Option.some.injEq] at hsim
        rw [← hsim] at hx
        simp only [DriverResult.trace, List.mem_append] at hx
        rcases hx with hx | hx
        · exact (hloopmem x hx).1
        · have hPl : Inv (lastState r0 tr1) ∧ (lastState r0 tr1).total_size = total := by
            rcases lastState_mem r0 tr1 with hl | hl
            · rw [hl]; exact ⟨hInv, htot⟩
            · exact hloopmem _ hl
          have hfull : (lastState r0 tr1).downloaded_size
              = (lastState r0 tr1).total_size := by
            have hexit := downloadLoop_finished_exit pauseSig total fuel 0 r0 tr1 hloop
            have := hPl.1.1
            omega
          exact completionTrace_inv _ hPl.1 hfull x hx
  · -- create_download
    intro id fn total s hs p hp
    simp only [create_download, List.mem_append, List.mem_singleton] at hp
    rcases hp with hp | hp
    · exact hs p hp
    · rw [hp]
      exact inv_createRecord fn total
  · -- start_download
    intro id s hs
    cases h : findRecord id s.downloads with
    | none => simpa [start_download, h] using hs
    | some doc =>
      simp only [start_download, h]
      intro p hp
      exact invState_updateOne_status id .downloading s.downloads hs p hp
  · -- pause_download
    intro id s hs
    cases h : findRecord id s.downloads with
    | none => simpa [pause_download, h] using hs
    | some doc =>
      simp only [pause_download, h]
      intro p hp
      exact invState_updateOne_status id .paused s.downloads hs p hp
  · -- resume_download
    intro id s hs
    cases h : findRecord id s.downloads with
    | none => simpa [resume_download, h] using hs
    | some doc =>
      simp only [resume_download, h]
      intro p hp
      exact invState_updateOne_status id .downloading s.downloads hs p hp
  · -- start_installation
    intro id s hs
    cases h : findRecord id s.downloads with
    | none => simpa [start_installation, h] using hs
    | some doc =>
      simp only [start_installation, h]
      split
      · intro p hp
        exact invState_updateOne_status id .installing s.downloads hs p hp
      · exact hs
  · -- delete_download
    intro id s hs
    simp only [delete_download]
    split
    · intro p hp
      exact hs p (mem_deleteOne id s.downloads p hp)
    · intro p hp
      exact hs p (mem_deleteOne id s.downloads p hp)

def partialRecord : DownloadRecord :=
  { createRecord "W" 100 with
    downloaded_size := 90
    progress := 90 }

theorem records_satisfy_progress_invariant_witness :
    Inv (createRecord "TheSims4.zip" 81604378624) ∧
    (∃ res, simulate_download (fun _ => false) 100 20 partialRecord = some res ∧
      ∀ x ∈ res.trace, Inv x) ∧
    InvState (start_download "b" idleState).2 :=
  ⟨records_satisfy_progress_invariant.1 "TheSims4.zip" 81604378624,
   ⟨_, rfl,
     records_satisfy_progress_invariant.2.1 (fun _ => false) 100 20 partialRecord _
       ⟨by norm_num [partialRecord, createRecord],
        by norm_num [partialRecord, createRecord, Inv]⟩ rfl rfl⟩,
   records_satisfy_progress_invariant.2.2.2.1 "b" idleState
     (by intro p hp
         simp only [idleState, List.mem_singleton] at hp
         rw [hp]
         exact inv_createRecord "TheSims4.zip" 100)⟩

end Sims4
